import Mathlib

set_option maxRecDepth 100000

/-
Shallow embedding of the riscv-bootloader repository.

Sources embedded here:
  * boot.h                      — configuration constants and the firmware header record
  * src/crc32.c                 — two implementations of crc32: a bitwise one and a
                                  nibble-optimized one with a 16-entry lookup table
  * src/uart.c                  — UART wrappers (newline normalization) and the flash
                                  abstraction layer (flash_write / flash_erase_app /
                                  flash_write_header)
  * boards/qemu_virt/platform.c — raw flash primitives (byte-wise write and 0xFF erase)

The Boot Selector and the Update Session Controller live in src/main.c, which is not
part of the source snapshot; where a claim depends on them they are modelled from the
specification and marked as such in their doc comments.

Machine integers are modelled as Nat.  All arithmetic performed by the C code on
uint32_t values is xor, right shifts and bounded table lookups, none of which can
exceed 2^32 when the inputs are below 2^32, so no truncation is inserted there; the
one place where uint32_t addition can wrap — the bounds check of flash_write — carries
an explicit % 2^32.

Flash memory is modelled as a total function from byte addresses to byte values, and
the UART transmit line as the list of bytes handed to the platform transmit register.
-/

/-- Constant BOOT_MAGIC from boot.h: the sentinel value 0x5256424C identifying a valid image. -/
def BOOT_MAGIC : Nat := 0x5256424C

/-- Constant FLASH_BASE from boot.h: base address of the bootloader flash region. -/
def FLASH_BASE : Nat := 0x80000000

/-- Constant FLASH_SIZE from boot.h: size of the bootloader flash region. -/
def FLASH_SIZE : Nat := 64 * 1024

/-- Constant APP_BASE from boot.h: base address of the application partition. -/
def APP_BASE : Nat := 0x80010000

/-- Constant APP_MAX_SIZE from boot.h: maximum size of the application partition. -/
def APP_MAX_SIZE : Nat := 448 * 1024

/-- Firmware header record from boot.h (fw_header_t): four uint32_t fields. -/
structure fw_header_t where
  magic : Nat
  size : Nat
  crc32 : Nat
  version : Nat
deriving DecidableEq, Repr

/-- One iteration of the inner bit loop of the bitwise crc32 in src/crc32.c:
if the low bit is set, shift right and xor the polynomial, else just shift. -/
def crc32_bitstep (crc : Nat) : Nat :=
  if crc &&& 1 ≠ 0 then (crc >>> 1) ^^^ 0xEDB88320 else crc >>> 1

/-- One iteration of the outer byte loop of the bitwise crc32 in src/crc32.c:
xor the byte into the register, then run the bit loop eight times. -/
def crc32_byteStep (crc b : Nat) : Nat :=
  crc32_bitstep^[8] (crc ^^^ b)

/-- The bitwise crc32 of src/crc32.c: register starts at 0xFFFFFFFF, each byte is
folded with crc32_byteStep, and the final register is complemented (the C code's
~crc on a uint32_t below 2^32 is exactly xor with 0xFFFFFFFF). -/
def crc32 (data : List Nat) : Nat :=
  (data.foldl crc32_byteStep 0xFFFFFFFF) ^^^ 0xFFFFFFFF

/-- The 16-entry lookup table crc32_table from the nibble-optimized crc32 in src/crc32.c. -/
def crc32_table : List Nat :=
  [0x00000000, 0x1DB71064, 0x3B6E20C8, 0x26D930AC,
   0x76DC4190, 0x6B6B51F4, 0x4DB26158, 0x5005713C,
   0xEDB88320, 0xF00F9344, 0xD6D6A3E8, 0xCB61B38C,
   0x9B64C2B0, 0x86D3D2D4, 0xA00AE278, 0xBDBDF21C]

/-- One table step of the nibble-optimized crc32 in src/crc32.c:
crc = (crc >> 4) ^ crc32_table[crc & 0xF]. -/
def crc32_nibStep (crc : Nat) : Nat :=
  (crc >>> 4) ^^^ crc32_table.getD (crc &&& 0xF) 0

/-- One iteration of the byte loop of the nibble-optimized crc32 in src/crc32.c:
xor the byte in, then two table steps. -/
def crc32_nib_byteStep (crc b : Nat) : Nat :=
  crc32_nibStep (crc32_nibStep (crc ^^^ b))

/-- The nibble-optimized crc32 of src/crc32.c: same init and final complement as the
bitwise one, bytes folded with crc32_nib_byteStep. -/
def crc32_nibble (data : List Nat) : Nat :=
  (data.foldl crc32_nib_byteStep 0xFFFFFFFF) ^^^ 0xFFFFFFFF

/-- Reference bitwise CRC-32, written from the specification's words: reflected
polynomial 0xEDB88320, initial register 0xFFFFFFFF, each input byte xored into the
register followed by eight conditional shift-xor rounds on the low bit, and the
one's complement of the final 32-bit register as the output. -/
def crc32_ref_inner : Nat → Nat → Nat
  | 0, r => r
  | j + 1, r =>
    if crc32_ref_inner j r % 2 = 1 then (crc32_ref_inner j r / 2) ^^^ 0xEDB88320
    else crc32_ref_inner j r / 2

/-- Register after feeding every byte of the input to the reference CRC-32 rounds. -/
def crc32_ref_feed : Nat → List Nat → Nat
  | r, [] => r
  | r, b :: bs => crc32_ref_feed (crc32_ref_inner 8 (r ^^^ b)) bs

/-- Reference CRC-32 output: complement (as a 32-bit register, xor with all ones) of
the final register. -/
def crc32_ref (data : List Nat) : Nat :=
  crc32_ref_feed 0xFFFFFFFF data ^^^ 0xFFFFFFFF

example : crc32 [0x31, 0x32, 0x33, 0x34, 0x35, 0x36, 0x37, 0x38, 0x39] = 0xCBF43926 := by
  decide

example : crc32_nibble [0x31, 0x32, 0x33, 0x34, 0x35, 0x36, 0x37, 0x38, 0x39] = 0xCBF43926 := by
  decide

example : crc32_ref [0x31, 0x32, 0x33, 0x34, 0x35, 0x36, 0x37, 0x38, 0x39] = 0xCBF43926 := by
  decide

/-- Flash memory state: the byte value stored at each address. -/
def FlashState := Nat → Nat

/-- Function platform_flash_write from boards/qemu_virt/platform.c: copies size bytes
from the data buffer to the addresses [addr, addr + size) one by one and returns 0. -/
def platform_flash_write (addr : Nat) (data : List Nat) (size : Nat) (st : FlashState) :
    Int × FlashState :=
  (0, fun a => if addr ≤ a ∧ a < addr + size then data.getD (a - addr) 0 else st a)

/-- Function platform_flash_erase from boards/qemu_virt/platform.c: sets every byte of
[addr, addr + size) to the erased value 0xFF and returns 0. -/
def platform_flash_erase (addr : Nat) (size : Nat) (st : FlashState) : Int × FlashState :=
  (0, fun a => if addr ≤ a ∧ a < addr + size then 0xFF else st a)

/-- Function flash_write from the flash abstraction layer in src/uart.c: returns -1
without touching flash when addr < APP_BASE or when the uint32_t sum addr + size —
which wraps modulo 2^32 on the 32-bit target — exceeds APP_BASE + APP_MAX_SIZE;
otherwise delegates to platform_flash_write and returns its result. -/
def flash_write (addr : Nat) (data : List Nat) (size : Nat) (st : FlashState) :
    Int × FlashState :=
  if addr < APP_BASE ∨ (addr + size) % 2 ^ 32 > APP_BASE + APP_MAX_SIZE then (-1, st)
  else platform_flash_write addr data size st

/-- Function flash_erase_app from src/uart.c: erases the entire application partition
by calling platform_flash_erase(APP_BASE, APP_MAX_SIZE). -/
def flash_erase_app (st : FlashState) : Int × FlashState :=
  platform_flash_erase APP_BASE APP_MAX_SIZE st

/-- In-memory image of one uint32_t as four bytes in little-endian order, the byte
order of the RV32 target. -/
def word32ToBytes (w : Nat) : List Nat :=
  [w % 256, w / 256 % 256, w / 65536 % 256, w / 16777216 % 256]

/-- In-memory byte image of fw_header_t on the target: the four uint32_t fields in
declaration order magic, size, crc32, version, each little-endian, no padding,
16 bytes in total. -/
def headerBytes (h : fw_header_t) : List Nat :=
  word32ToBytes h.magic ++ word32ToBytes h.size ++
    word32ToBytes h.crc32 ++ word32ToBytes h.version

/-- Function flash_write_header from src/uart.c: writes the header's bytes at APP_BASE
via platform_flash_write, with sizeof(fw_header_t) = 16. -/
def flash_write_header (h : fw_header_t) (st : FlashState) : Int × FlashState :=
  platform_flash_write APP_BASE (headerBytes h) 16 st

/-- Little-endian 32-bit read of four consecutive flash bytes, as the RV32 load of a
uint32_t field performs it. -/
def readWord32 (st : FlashState) (addr : Nat) : Nat :=
  st addr + 256 * st (addr + 1) + 65536 * st (addr + 2) + 16777216 * st (addr + 3)

/-- Header value as read from flash at the partition base. -/
def readHeader (st : FlashState) : fw_header_t :=
  ⟨readWord32 st APP_BASE, readWord32 st (APP_BASE + 4), readWord32 st (APP_BASE + 8),
   readWord32 st (APP_BASE + 12)⟩

/-- Body bytes in flash: n bytes starting immediately after the 16-byte header. -/
def readBody (st : FlashState) (n : Nat) : List Nat :=
  (List.range n).map fun i => st (APP_BASE + 16 + i)

/-- Outcome of the reset-time boot selection. -/
inductive BootDecision where
  | dispatch
  | enterUpdater
deriving DecidableEq, Repr

/-- Modelled from the spec: the Boot Selector lives in src/main.c, which is absent
from the source snapshot.  Following §4.3: read the header at the partition base;
reject if magic mismatches; if magic matches, reject if size exceeds the partition's
maximum capacity or if the checksum over exactly size body bytes differs from the
stored crc32; on acceptance dispatch to the application, on rejection fall through
to the updater. -/
def boot_select (st : FlashState) : BootDecision :=
  if (readHeader st).magic ≠ BOOT_MAGIC then .enterUpdater
  else if (readHeader st).size > APP_MAX_SIZE then .enterUpdater
  else if (readHeader st).crc32 ≠ crc32 (readBody st (readHeader st).size) then .enterUpdater
  else .dispatch

/-- Modelled from the spec: the §3 validity invariant — a header is valid iff magic
equals BOOT_MAGIC, size is at most APP_MAX_SIZE, and crc32 equals the checksum of
exactly size body bytes starting immediately after the header. -/
def headerValid (st : FlashState) : Prop :=
  (readHeader st).magic = BOOT_MAGIC ∧ (readHeader st).size ≤ APP_MAX_SIZE ∧
    (readHeader st).crc32 = crc32 (readBody st (readHeader st).size)

instance (st : FlashState) : Decidable (headerValid st) := by
  unfold headerValid; infer_instance

/-- Function platform_uart_putc from boards/qemu_virt/platform.c in the trace model:
hands one byte to the transmit register, appending it to the transmitted byte list. -/
def platform_uart_putc (c : Nat) (out : List Nat) : List Nat := out ++ [c]

/-- Function uart_putc from src/uart.c: when the character is a line feed (10), first
transmit a carriage return (13), then transmit the character itself. -/
def uart_putc (c : Nat) (out : List Nat) : List Nat :=
  platform_uart_putc c (if c = 10 then platform_uart_putc 13 out else out)

/-- Function uart_puts from src/uart.c: transmit each character of the string in order
through uart_putc. -/
def uart_puts (s : List Nat) (out : List Nat) : List Nat :=
  s.foldl (fun o c => uart_putc c o) out

/-- Modelled from the spec: the Receiving state of §4.4 (src/main.c is absent) writes
each received payload byte through the Flash Program Manager at the next sequential
offset past the 16-byte header, so byte i of the payload goes through flash_write at
address APP_BASE + 16 + i. -/
def stage_body (payload : List Nat) (st : FlashState) : FlashState :=
  (List.range payload.length).foldl
    (fun s i => (flash_write (APP_BASE + 16 + i) [payload.getD i 0] 1 s).2) st

/-- Outcome of one update session run: rejected at size negotiation before touching
flash, aborted on a failed flash primitive, or completed through the commit. -/
inductive SessionOutcome where
  | rejected
  | flashFailed
  | completed
deriving DecidableEq, Repr

/-- Modelled from the spec: the Receiving state of §4.4 checked for failure — write
the body bytes one at a time through flash_write at consecutive offsets starting at
APP_BASE + 16 + off, and abort immediately on the first nonzero result, without
attempting the remaining bytes; returns the first failing result (or 0) and the
flash state reached. -/
def stage_from (off : Nat) : List Nat → FlashState → Int × FlashState
  | [], st => (0, st)
  | b :: bs, st =>
    if (flash_write (APP_BASE + 16 + off) [b] 1 st).1 ≠ 0 then
      ((flash_write (APP_BASE + 16 + off) [b] 1 st).1,
       (flash_write (APP_BASE + 16 + off) [b] 1 st).2)
    else stage_from (off + 1) bs (flash_write (APP_BASE + 16 + off) [b] 1 st).2

/-- Modelled from the spec: the Update Session Controller lives in src/main.c, which
is absent from the source snapshot.  Following §4.4 and the §4.2 failure semantics:
validate the negotiated size against the partition capacity and abort without
touching flash when it exceeds it; otherwise erase the application partition,
aborting if the erase fails; stream exactly the negotiated number of payload bytes
through the Flash Program Manager past the header, aborting on the first failed
write without attempting the remaining chunks or the commit; and only after every
byte succeeded commit the header with magic BOOT_MAGIC, the negotiated size, the
checksum of the received body, and a fixed version constant 1, aborting if the
commit write fails. -/
def session_run (reqSize : Nat) (payload : List Nat) (st : FlashState) :
    SessionOutcome × FlashState :=
  if reqSize > APP_MAX_SIZE then (.rejected, st)
  else if (flash_erase_app st).1 ≠ 0 then (.flashFailed, (flash_erase_app st).2)
  else if (stage_from 0 (payload.take reqSize) (flash_erase_app st).2).1 ≠ 0 then
    (.flashFailed, (stage_from 0 (payload.take reqSize) (flash_erase_app st).2).2)
  else if (flash_write_header ⟨BOOT_MAGIC, reqSize, crc32 (payload.take reqSize), 1⟩
      (stage_from 0 (payload.take reqSize) (flash_erase_app st).2).2).1 ≠ 0 then
    (.flashFailed, (flash_write_header ⟨BOOT_MAGIC, reqSize, crc32 (payload.take reqSize), 1⟩
      (stage_from 0 (payload.take reqSize) (flash_erase_app st).2).2).2)
  else (.completed, (flash_write_header ⟨BOOT_MAGIC, reqSize, crc32 (payload.take reqSize), 1⟩
      (stage_from 0 (payload.take reqSize) (flash_erase_app st).2).2).2)

/-- Modelled from the spec: the incremental accumulate form of the §4.1 contract —
the state is the running 32-bit CRC register and a chunk is folded into it byte by
byte with the per-byte step of the crc32 in src/crc32.c. -/
def crc_accumulate (state : Nat) (chunk : List Nat) : Nat :=
  chunk.foldl crc32_byteStep state

/-- The conditional shift-xor round written with % and / (the spec's phrasing) agrees
with the source's round written with &&& and >>>. -/
lemma crc32_bitstep_eq_ref_round (r : Nat) :
    crc32_bitstep r = if r % 2 = 1 then (r / 2) ^^^ 0xEDB88320 else r / 2 := by
  unfold crc32_bitstep
  rw [Nat.and_one_is_mod, Nat.shiftRight_one]
  rcases Nat.mod_two_eq_zero_or_one r with h | h <;> simp [h]

/-- The reference inner loop is n iterations of the source's bit step. -/
lemma crc32_ref_inner_eq_iterate (n r : Nat) :
    crc32_ref_inner n r = crc32_bitstep^[n] r := by
  induction n generalizing r with
  | zero => rfl
  | succ n ih =>
    rw [Function.iterate_succ_apply', crc32_ref_inner, ih, ← crc32_bitstep_eq_ref_round]

/-- Unfolding equation of the reference feed loop on a non-empty input. -/
lemma crc32_ref_feed_cons (r b : Nat) (bs : List Nat) :
    crc32_ref_feed r (b :: bs) = crc32_ref_feed (crc32_ref_inner 8 (r ^^^ b)) bs := rfl

/-- The reference feed loop is the source's byte fold. -/
lemma crc32_ref_feed_eq_foldl (l : List Nat) (r : Nat) :
    crc32_ref_feed r l = l.foldl crc32_byteStep r := by
  induction l generalizing r with
  | nil => rfl
  | cons b bs ih =>
    rw [crc32_ref_feed_cons, List.foldl_cons, crc32_ref_inner_eq_iterate, ih]
    rfl

/-- C3: the bitwise crc32 of src/crc32.c computes the standard IEEE 802.3 CRC-32 —
for every byte sequence it equals the reference definition with reflected polynomial
0xEDB88320, initial register 0xFFFFFFFF and one's-complement finalization, and on the
nine ASCII bytes of the digit string 123456789 it returns 0xCBF43926. -/
theorem crc32_ieee_conformance :
    (∀ data : List Nat, crc32 data = crc32_ref data) ∧
      crc32 [0x31, 0x32, 0x33, 0x34, 0x35, 0x36, 0x37, 0x38, 0x39] = 0xCBF43926 := by
  constructor
  · intro data
    unfold crc32 crc32_ref
    rw [crc32_ref_feed_eq_foldl]
  · decide

/-- C9: incremental checksum accumulation — folding crc_accumulate over any chunk
split of an input, starting from the initial register 0xFFFFFFFF and complementing
the final state, gives the same value as the one-call crc32 of the concatenation. -/
theorem crc32_accumulate_chunks :
    ∀ chunks : List (List Nat),
      (chunks.foldl crc_accumulate 0xFFFFFFFF) ^^^ 0xFFFFFFFF = crc32 chunks.flatten := by
  intro chunks
  unfold crc32
  rw [List.foldl_flatten]
  rfl

/-- C10: uart_putc transmits every character unchanged except that a line feed is
expanded to carriage return followed by line feed, and uart_puts therefore puts each
line on the wire with CRLF termination: its transmission is the concatenation of the
per-character expansions. -/
theorem uart_crlf_normalization :
    ∀ (c : Nat) (s : List Nat) (out : List Nat),
      uart_putc c out = out ++ (if c = 10 then [13, 10] else [c]) ∧
      uart_puts s out =
        out ++ (s.map fun ch => if ch = 10 then [13, 10] else [ch]).flatten := by
  have hputc : ∀ (c : Nat) (out : List Nat),
      uart_putc c out = out ++ (if c = 10 then [13, 10] else [c]) := by
    intro c out
    unfold uart_putc platform_uart_putc
    by_cases h : c = 10 <;> simp [h]
  intro c s out
  refine ⟨hputc c out, ?_⟩
  induction s generalizing out with
  | nil => simp [uart_puts]
  | cons ch rest ih =>
    have hrest : uart_puts (ch :: rest) out = uart_puts rest (uart_putc ch out) := rfl
    rw [hrest, ih, hputc]
    simp

/-- C7: flash_erase_app returns the primitive's 0 and erases exactly the application
partition — every byte of [APP_BASE, APP_BASE + APP_MAX_SIZE) becomes 0xFF and every
byte outside that range, the bootloader region included, keeps its previous value. -/
theorem flash_erase_app_whole_partition :
    ∀ st : FlashState,
      (flash_erase_app st).1 = 0 ∧
      ∀ a : Nat,
        (APP_BASE ≤ a ∧ a < APP_BASE + APP_MAX_SIZE → (flash_erase_app st).2 a = 0xFF) ∧
        (a < APP_BASE ∨ APP_BASE + APP_MAX_SIZE ≤ a → (flash_erase_app st).2 a = st a) := by
  intro st
  refine ⟨rfl, fun a => ⟨fun h => ?_, fun h => ?_⟩⟩
  · simp [flash_erase_app, platform_flash_erase, h]
  · have hc : ¬(APP_BASE ≤ a ∧ a < APP_BASE + APP_MAX_SIZE) := by omega
    simp [flash_erase_app, platform_flash_erase, hc]

/-- Witness for C7 at a concrete flash state: the first partition byte becomes 0xFF
and address 0, inside the bootloader region, is untouched. -/
theorem flash_erase_app_whole_partition_witness :
    (flash_erase_app (fun _ => 0)).2 APP_BASE = 0xFF ∧ (flash_erase_app (fun _ => 0)).2 0 = 0 :=
  ⟨((flash_erase_app_whole_partition (fun _ => 0)).2 APP_BASE).1 ⟨Nat.le_refl _, by decide⟩,
   ((flash_erase_app_whole_partition (fun _ => 0)).2 0).2 (Or.inl (by decide))⟩

/-- C6: flash_write_header returns the primitive's 0 and writes exactly the 16
serialized header bytes — the four uint32_t fields in order magic, size, crc32,
version, little-endian, no padding — at APP_BASE, leaving every other address
unchanged; reading the header back recovers the written value. -/
theorem flash_write_header_exact :
    ∀ (h : fw_header_t) (st : FlashState),
      (flash_write_header h st).1 = 0 ∧
      (∀ i : Nat, i < 16 →
        (flash_write_header h st).2 (APP_BASE + i) = (headerBytes h).getD i 0) ∧
      (∀ a : Nat, a < APP_BASE ∨ APP_BASE + 16 ≤ a → (flash_write_header h st).2 a = st a) ∧
      (h.magic < 2 ^ 32 → h.size < 2 ^ 32 → h.crc32 < 2 ^ 32 → h.version < 2 ^ 32 →
        readHeader (flash_write_header h st).2 = h) := by
  intro h st
  refine ⟨rfl, fun i hi => ?_, fun a ha => ?_, fun hm hs hc hv => ?_⟩
  · have hcnd : APP_BASE ≤ APP_BASE + i ∧ APP_BASE + i < APP_BASE + 16 :=
      ⟨Nat.le_add_right _ _, by omega⟩
    simp [flash_write_header, platform_flash_write, hcnd]
  · have hcnd : ¬(APP_BASE ≤ a ∧ a < APP_BASE + 16) := by omega
    simp [flash_write_header, platform_flash_write, hcnd]
  · cases h with
    | mk m s c v =>
      have e1 : readWord32 (flash_write_header ⟨m, s, c, v⟩ st).2 APP_BASE =
          m % 256 + 256 * (m / 256 % 256) + 65536 * (m / 65536 % 256) +
            16777216 * (m / 16777216 % 256) := rfl
      have e2 : readWord32 (flash_write_header ⟨m, s, c, v⟩ st).2 (APP_BASE + 4) =
          s % 256 + 256 * (s / 256 % 256) + 65536 * (s / 65536 % 256) +
            16777216 * (s / 16777216 % 256) := rfl
      have e3 : readWord32 (flash_write_header ⟨m, s, c, v⟩ st).2 (APP_BASE + 8) =
          c % 256 + 256 * (c / 256 % 256) + 65536 * (c / 65536 % 256) +
            16777216 * (c / 16777216 % 256) := rfl
      have e4 : readWord32 (flash_write_header ⟨m, s, c, v⟩ st).2 (APP_BASE + 12) =
          v % 256 + 256 * (v / 256 % 256) + 65536 * (v / 65536 % 256) +
            16777216 * (v / 16777216 % 256) := rfl
      unfold readHeader
      rw [e1, e2, e3, e4]
      simp only [fw_header_t.mk.injEq] at *
      refine ⟨by omega, by omega, by omega, by omega⟩

/-- Witness for C6 at a concrete header and flash state: the first serialized byte is
the low byte 0x4C of BOOT_MAGIC, address 0 is untouched, and the header reads back. -/
theorem flash_write_header_exact_witness :
    (flash_write_header ⟨BOOT_MAGIC, 40, 7, 1⟩ (fun _ => 0)).2 (APP_BASE + 0) = 0x4C ∧
    (flash_write_header ⟨BOOT_MAGIC, 40, 7, 1⟩ (fun _ => 0)).2 0 = 0 ∧
    readHeader (flash_write_header ⟨BOOT_MAGIC, 40, 7, 1⟩ (fun _ => 0)).2 =
      ⟨BOOT_MAGIC, 40, 7, 1⟩ :=
  ⟨by
    have := (flash_write_header_exact ⟨BOOT_MAGIC, 40, 7, 1⟩ (fun _ => 0)).2.1 0 (by decide)
    simpa using this,
   (flash_write_header_exact ⟨BOOT_MAGIC, 40, 7, 1⟩ (fun _ => 0)).2.2.1 0 (Or.inl (by decide)),
   (flash_write_header_exact ⟨BOOT_MAGIC, 40, 7, 1⟩ (fun _ => 0)).2.2.2
     (by decide) (by decide) (by decide) (by decide)⟩

/-- C2 counterexample: with addr = APP_BASE and size = 2^31 the byte range
[addr, addr + size) overruns the partition end by far, yet the uint32_t sum
addr + size wraps to 0x10000, the bounds check passes, and flash_write returns the
primitive's 0 instead of the BoundsError -1 the claim requires for every
out-of-partition range. -/
theorem flash_write_bounds_counterexample :
    (flash_write APP_BASE [] 0x80000000 (fun _ => 0)).1 = 0 ∧
      APP_BASE + APP_MAX_SIZE < APP_BASE + 0x80000000 := by
  exact ⟨rfl, by decide⟩

/-- C2 amended: flash_write fails with -1 and leaves flash untouched iff
addr < APP_BASE or the wrapped uint32_t sum (addr + size) mod 2^32 exceeds
APP_BASE + APP_MAX_SIZE — which coincides with the byte range [addr, addr + size)
not lying fully inside the partition whenever addr + size does not overflow —
and otherwise it delegates to platform_flash_write and returns its result
unchanged. -/
theorem flash_write_bounds_check :
    ∀ (addr : Nat) (data : List Nat) (size : Nat) (st : FlashState),
      (flash_write addr data size st = (-1, st) ↔
        addr < APP_BASE ∨ (addr + size) % 2 ^ 32 > APP_BASE + APP_MAX_SIZE) ∧
      (¬(addr < APP_BASE ∨ (addr + size) % 2 ^ 32 > APP_BASE + APP_MAX_SIZE) →
        flash_write addr data size st = platform_flash_write addr data size st) := by
  intro addr data size st
  refine ⟨⟨fun heq => ?_, fun hc => ?_⟩, fun hc => ?_⟩
  · by_contra hc
    have hdel : flash_write addr data size st = platform_flash_write addr data size st := by
      unfold flash_write
      rw [if_neg hc]
    rw [hdel] at heq
    have h1 := congrArg Prod.fst heq
    simp [platform_flash_write] at h1
  · unfold flash_write
    rw [if_pos hc]
  · unfold flash_write
    rw [if_neg hc]

/-- Witness for C2 at concrete inputs: a write at address 0 (before APP_BASE) fails
with -1 leaving flash untouched, and an in-partition one-byte write delegates. -/
theorem flash_write_bounds_check_witness :
    flash_write 0 [] 4 (fun _ => 0) = (-1, fun _ => 0) ∧
      flash_write APP_BASE [1] 1 (fun _ => 0) =
        platform_flash_write APP_BASE [1] 1 (fun _ => 0) :=
  ⟨(flash_write_bounds_check 0 [] 4 (fun _ => 0)).1.mpr (Or.inl (by decide)),
   (flash_write_bounds_check APP_BASE [1] 1 (fun _ => 0)).2 (by decide)⟩

/-- C5: the Boot Selector dispatches to the application exactly when the stored header
is valid — magic equals BOOT_MAGIC, size is within APP_MAX_SIZE, and the stored crc32
equals the checksum of exactly size body bytes — and on any rejection it falls through
to the updater, the same outcome as no firmware installed. -/
theorem boot_select_iff_header_valid :
    ∀ st : FlashState,
      (boot_select st = BootDecision.dispatch ↔ headerValid st) ∧
      (boot_select st = BootDecision.enterUpdater ↔ ¬ headerValid st) := by
  intro st
  unfold boot_select headerValid
  by_cases h1 : (readHeader st).magic = BOOT_MAGIC <;>
    by_cases h2 : (readHeader st).size > APP_MAX_SIZE <;>
      by_cases h3 : (readHeader st).crc32 = crc32 (readBody st (readHeader st).size) <;>
        simp [h1, h2, h3] <;> omega

/-- Witness for C5 at the all-zero flash state: its header is invalid and the Boot
Selector enters the updater. -/
theorem boot_select_iff_header_valid_witness :
    boot_select (fun _ => 0) = BootDecision.enterUpdater :=
  (boot_select_iff_header_valid (fun _ => 0)).2.mpr (by decide)

/-- An address below the written range, or at or past its end, is untouched by
flash_write, whether the write is rejected or delegated. -/
lemma flash_write_frame (addr : Nat) (data : List Nat) (size : Nat) (st : FlashState)
    (a : Nat) (ha : a < addr ∨ addr + size ≤ a) :
    (flash_write addr data size st).2 a = st a := by
  unfold flash_write
  by_cases hc : addr < APP_BASE ∨ (addr + size) % 2 ^ 32 > APP_BASE + APP_MAX_SIZE
  · rw [if_pos hc]
  · rw [if_neg hc]
    unfold platform_flash_write
    have hno : ¬(addr ≤ a ∧ a < addr + size) := by omega
    simp [hno]

/-- Staging payload bytes past the header never touches an address below
APP_BASE + 16; in particular the 16 header bytes stay as they were. -/
lemma stage_body_frame (payload : List Nat) (st : FlashState) (a : Nat)
    (ha : a < APP_BASE + 16) :
    stage_body payload st a = st a := by
  unfold stage_body
  have key : ∀ (l : List Nat) (s : FlashState),
      (l.foldl (fun s i => (flash_write (APP_BASE + 16 + i) [payload.getD i 0] 1 s).2) s) a =
        s a := by
    intro l
    induction l with
    | nil => intro s; rfl
    | cons i rest ih =>
      intro s
      rw [List.foldl_cons, ih]
      exact flash_write_frame _ _ _ _ _ (Or.inl (by omega))
  exact key _ st

/-- C1: atomicity under interruption — after the whole-partition erase and any number
of staged payload writes, but before commitHeader, the 16 header bytes are all 0xFF,
the magic field reads 0xFFFFFFFF which differs from BOOT_MAGIC, the header is invalid,
and the Boot Selector does not dispatch but enters the updater. -/
theorem abort_before_commit_not_dispatched :
    ∀ (st : FlashState) (payload : List Nat) (k : Nat),
      (∀ i : Nat, i < 16 →
        stage_body (payload.take k) (flash_erase_app st).2 (APP_BASE + i) = 0xFF) ∧
      (readHeader (stage_body (payload.take k) (flash_erase_app st).2)).magic = 0xFFFFFFFF ∧
      ¬ headerValid (stage_body (payload.take k) (flash_erase_app st).2) ∧
      boot_select (stage_body (payload.take k) (flash_erase_app st).2) =
        BootDecision.enterUpdater := by
  intro st payload k
  have hbyte : ∀ i : Nat, i < 16 →
      stage_body (payload.take k) (flash_erase_app st).2 (APP_BASE + i) = 0xFF := by
    intro i hi
    rw [stage_body_frame _ _ _ (by omega)]
    refine ((flash_erase_app_whole_partition st).2 (APP_BASE + i)).1 ⟨Nat.le_add_right _ _, ?_⟩
    simp only [APP_BASE, APP_MAX_SIZE]
    omega
  have h0 : stage_body (payload.take k) (flash_erase_app st).2 APP_BASE = 0xFF := by
    simpa using hbyte 0 (by norm_num)
  have hmagic :
      (readHeader (stage_body (payload.take k) (flash_erase_app st).2)).magic = 0xFFFFFFFF := by
    have hrd : (readHeader (stage_body (payload.take k) (flash_erase_app st).2)).magic =
        readWord32 (stage_body (payload.take k) (flash_erase_app st).2) APP_BASE := rfl
    rw [hrd]
    unfold readWord32
    rw [h0, hbyte 1 (by norm_num), hbyte 2 (by norm_num), hbyte 3 (by norm_num)]
  have hnv : ¬ headerValid (stage_body (payload.take k) (flash_erase_app st).2) := by
    intro hv
    obtain ⟨hvm, _, _⟩ := hv
    rw [hmagic] at hvm
    exact absurd hvm (by decide)
  have hne : (readHeader (stage_body (payload.take k) (flash_erase_app st).2)).magic ≠
      BOOT_MAGIC := by
    rw [hmagic]
    decide
  refine ⟨hbyte, hmagic, hnv, ?_⟩
  unfold boot_select
  rw [if_pos hne]

/-- Witness for C1 at a concrete interrupted update (empty staging over the all-zero
state): the first header byte is erased and the Boot Selector enters the updater. -/
theorem abort_before_commit_not_dispatched_witness :
    stage_body (List.take 0 []) (flash_erase_app (fun _ => 0)).2 APP_BASE = 0xFF ∧
      boot_select (stage_body (List.take 0 []) (flash_erase_app (fun _ => 0)).2) =
        BootDecision.enterUpdater :=
  ⟨by simpa using (abort_before_commit_not_dispatched (fun _ => 0) [] 0).1 0 (by decide),
   (abort_before_commit_not_dispatched (fun _ => 0) [] 0).2.2.2⟩

/-- C8: size negotiation boundaries of the update session — size 0 is accepted and
completes through erase and commit with no payload bytes staged, size APP_MAX_SIZE
passes the size validation (the session is never rejected at negotiation: it
proceeds to erase and then either completes or aborts on a failed flash write), and
any size strictly above APP_MAX_SIZE is rejected before erase or any write, with
flash returned unchanged. -/
theorem session_size_negotiation :
    ∀ (st : FlashState) (payload : List Nat),
      session_run 0 payload st =
        (SessionOutcome.completed,
          (flash_write_header ⟨BOOT_MAGIC, 0, crc32 [], 1⟩ (flash_erase_app st).2).2) ∧
      (session_run APP_MAX_SIZE payload st).1 ≠ SessionOutcome.rejected ∧
      (∀ n : Nat, n > APP_MAX_SIZE → session_run n payload st = (SessionOutcome.rejected, st)) := by
  intro st payload
  refine ⟨?_, ?_, fun n hn => ?_⟩
  · rfl
  · unfold session_run
    rw [if_neg (by omega)]
    split_ifs <;> simp
  · unfold session_run
    rw [if_pos hn]

/-- Witness for C8 at concrete inputs: one byte over capacity is rejected with flash
unchanged. -/
theorem session_size_negotiation_witness :
    session_run (APP_MAX_SIZE + 1) [] (fun _ => 0) = (SessionOutcome.rejected, fun _ => 0) :=
  (session_size_negotiation (fun _ => 0) []).2.2 (APP_MAX_SIZE + 1) (by omega)

/-- The bit step written as an unconditional xor: shift right one and xor the
polynomial exactly when the low bit was set. -/
lemma crc32_bitstep_as_xor (c : Nat) :
    crc32_bitstep c = (c >>> 1) ^^^ (if c &&& 1 = 1 then 0xEDB88320 else 0) := by
  unfold crc32_bitstep
  rw [Nat.and_one_is_mod]
  rcases Nat.mod_two_eq_zero_or_one c with h | h <;> simp [h]

/-- Right shift by one distributes over xor. -/
lemma shiftRight_one_xor (x y : Nat) : (x ^^^ y) >>> 1 = (x >>> 1) ^^^ (y >>> 1) := by
  apply Nat.eq_of_testBit_eq
  intro i
  simp [Nat.testBit_shiftRight, Nat.testBit_xor]

/-- Xor is self-cancelling on a common summand. -/
lemma xor_xor_cancel (a b c : Nat) : (a ^^^ c) ^^^ (b ^^^ c) = a ^^^ b := by
  calc (a ^^^ c) ^^^ (b ^^^ c) = a ^^^ (c ^^^ (b ^^^ c)) := by rw [Nat.xor_assoc]
    _ = a ^^^ (c ^^^ (c ^^^ b)) := by rw [Nat.xor_comm b c]
    _ = a ^^^ ((c ^^^ c) ^^^ b) := by rw [Nat.xor_assoc]
    _ = a ^^^ (0 ^^^ b) := by rw [Nat.xor_self]
    _ = a ^^^ b := by rw [Nat.zero_xor]

/-- Left commutativity of xor on naturals. -/
lemma nat_xor_left_comm (a b c : Nat) : a ^^^ (b ^^^ c) = b ^^^ (a ^^^ c) := by
  rw [← Nat.xor_assoc, Nat.xor_comm a b, Nat.xor_assoc]

/-- The bit step is linear over xor. -/
lemma crc32_bitstep_xor (x y : Nat) :
    crc32_bitstep (x ^^^ y) = crc32_bitstep x ^^^ crc32_bitstep y := by
  rw [crc32_bitstep_as_xor, crc32_bitstep_as_xor, crc32_bitstep_as_xor,
    shiftRight_one_xor, Nat.and_xor_distrib_right]
  have hx : x &&& 1 = 0 ∨ x &&& 1 = 1 := by
    rw [Nat.and_one_is_mod]
    exact Nat.mod_two_eq_zero_or_one x
  have hy : y &&& 1 = 0 ∨ y &&& 1 = 1 := by
    rw [Nat.and_one_is_mod]
    exact Nat.mod_two_eq_zero_or_one y
  rcases hx with hx | hx <;> rcases hy with hy | hy
  · simp [hx, hy]
  · simp [hx, hy, Nat.xor_assoc]
  · simp [hx, hy, Nat.xor_assoc, Nat.xor_comm, nat_xor_left_comm]
  · rw [hx, hy]
    have h11 : ((1 : Nat) ^^^ 1) = 0 := rfl
    rw [h11, if_neg (by decide), Nat.xor_zero]
    exact (xor_xor_cancel _ _ 0xEDB88320).symm

/-- Every iterate of the bit step is linear over xor. -/
lemma crc32_bitstep_iterate_xor (n x y : Nat) :
    crc32_bitstep^[n] (x ^^^ y) = crc32_bitstep^[n] x ^^^ crc32_bitstep^[n] y := by
  induction n generalizing x y with
  | zero => simp
  | succ n ih =>
    rw [Function.iterate_succ_apply, Function.iterate_succ_apply,
      Function.iterate_succ_apply, crc32_bitstep_xor, ih]

/-- On an even input the bit step is exactly a halving. -/
lemma crc32_bitstep_two_mul (x : Nat) : crc32_bitstep (2 * x) = x := by
  unfold crc32_bitstep
  rw [Nat.and_one_is_mod, Nat.shiftRight_one]
  have h1 : 2 * x % 2 = 0 := Nat.mul_mod_right 2 x
  rw [if_neg (by simp [h1])]
  omega

/-- Four bit steps undo a multiplication by 16. -/
lemma crc32_bitstep_iterate4_sixteen_mul (x : Nat) : crc32_bitstep^[4] (16 * x) = x := by
  have e : crc32_bitstep^[4] (16 * x) =
      crc32_bitstep (crc32_bitstep (crc32_bitstep (crc32_bitstep (16 * x)))) := rfl
  rw [e, show (16 : Nat) * x = 2 * (2 * (2 * (2 * x))) by ring,
    crc32_bitstep_two_mul, crc32_bitstep_two_mul, crc32_bitstep_two_mul,
    crc32_bitstep_two_mul]

/-- Masking with 15 is reduction modulo 16. -/
lemma and_fifteen_eq_mod (c : Nat) : c &&& 15 = c % 16 := by
  have h := Nat.and_pow_two_sub_one_eq_mod c 4
  norm_num at h
  exact h

/-- For a remainder below 16, xor with a multiple of 16 is plain addition. -/
lemma mul16_xor_eq_add (q r : Nat) (hr : r < 16) : 16 * q ^^^ r = 16 * q + r := by
  apply Nat.eq_of_testBit_eq
  intro i
  have h16 : (16 : Nat) * q = 2 ^ 4 * q + 0 := by ring
  have hadd : 16 * q + r = 2 ^ 4 * q + r := by ring
  rw [Nat.testBit_xor, hadd, h16,
    @Nat.testBit_mul_pow_two_add q 0 4 (by norm_num) i,
    @Nat.testBit_mul_pow_two_add q r 4 (by omega) i]
  rcases Nat.lt_or_ge i 4 with hi | hi
  · rw [if_pos hi, if_pos hi, Nat.zero_testBit]
    simp
  · rw [if_neg (by omega), if_neg (by omega)]
    have hf : r.testBit i = false :=
      Nat.testBit_lt_two_pow (lt_of_lt_of_le hr (by
        calc (16 : Nat) = 2 ^ 4 := by norm_num
          _ ≤ 2 ^ i := Nat.pow_le_pow_right (by norm_num) hi))
    rw [hf]
    simp

/-- Every natural splits as the xor of 16 times its high part and its low nibble. -/
lemma nib_decomp (c : Nat) : 16 * (c >>> 4) ^^^ (c &&& 15) = c := by
  rw [and_fifteen_eq_mod, Nat.shiftRight_eq_div_pow,
    mul16_xor_eq_add _ _ (Nat.mod_lt _ (by norm_num))]
  norm_num
  omega

/-- Each of the 16 table entries of src/crc32.c is four bit steps applied to its index. -/
lemma table_entries : ∀ r : Nat, r < 16 → crc32_table.getD r 0 = crc32_bitstep^[4] r := by
  decide

/-- One nibble table step equals four bit steps. -/
lemma crc32_nibStep_eq_iterate (c : Nat) : crc32_nibStep c = crc32_bitstep^[4] c := by
  conv_rhs => rw [← nib_decomp c]
  rw [crc32_bitstep_iterate_xor, crc32_bitstep_iterate4_sixteen_mul]
  unfold crc32_nibStep
  rw [table_entries (c &&& 15) (Nat.lt_succ_of_le Nat.and_le_right)]

/-- The per-byte steps of the two implementations agree. -/
lemma crc32_nib_byteStep_eq (crc b : Nat) :
    crc32_nib_byteStep crc b = crc32_byteStep crc b := by
  unfold crc32_nib_byteStep crc32_byteStep
  rw [crc32_nibStep_eq_iterate, crc32_nibStep_eq_iterate, ← Function.iterate_add_apply]

/-- C4: refinement equivalence of the two crc32 implementations in src/crc32.c — the
nibble-optimized 16-entry lookup-table version returns exactly the same value as the
bitwise version on every byte sequence. -/
theorem crc32_nibble_eq_bitwise :
    ∀ data : List Nat, crc32_nibble data = crc32 data := by
  intro data
  unfold crc32_nibble crc32
  have hf : crc32_nib_byteStep = crc32_byteStep :=
    funext fun crc => funext fun b => crc32_nib_byteStep_eq crc b
  rw [hf]
